import Mathlib

/-!
Verification of the `bad_input` library: a shallow embedding of
`src/lib.rs` (the buffered reader `BadInput` with `try_read_to_byte`,
`empty_buffer`, `try_line`, `line`, `lines`) and
`src/input_string.rs` (the `InputString` splitting/destructuring family),
with theorems settling the specification's claims.

Rust strings are embedded at two levels, matching the two halves of the
code: the reader works on raw bytes (`List Nat`, each element < 256 in
practice), the `InputString` combinators on decoded text (`List Char`).
-/

namespace BadInputModel

/-- Byte value of a 7-bit character string; used to write concrete byte
sequences readably.  Only applied to ASCII literals, where the UTF-8
bytes coincide with the code points. -/
def asciiBytes (s : String) : List Nat :=
  s.toList.map (fun c => c.toNat)

/-- UTF-8 continuation byte: `0x80 ≤ b ≤ 0xBF`. -/
def contByte (b : Nat) : Bool :=
  128 ≤ b && b ≤ 191

/-- UTF-8 validity of a byte sequence, as checked by Rust's
`String::from_utf8` (the DFA of RFC 3629: shortest forms only,
no surrogates, max `U+10FFFF`). -/
def validUtf8 : List Nat → Bool
  | [] => true
  | b :: rest =>
    if b ≤ 127 then validUtf8 rest
    else if 194 ≤ b && b ≤ 223 then
      match rest with
      | b1 :: r => contByte b1 && validUtf8 r
      | [] => false
    else if b = 224 then
      match rest with
      | b1 :: b2 :: r => (160 ≤ b1 && b1 ≤ 191) && contByte b2 && validUtf8 r
      | _ => false
    else if 225 ≤ b && b ≤ 236 then
      match rest with
      | b1 :: b2 :: r => contByte b1 && contByte b2 && validUtf8 r
      | _ => false
    else if b = 237 then
      match rest with
      | b1 :: b2 :: r => (128 ≤ b1 && b1 ≤ 159) && contByte b2 && validUtf8 r
      | _ => false
    else if 238 ≤ b && b ≤ 239 then
      match rest with
      | b1 :: b2 :: r => contByte b1 && contByte b2 && validUtf8 r
      | _ => false
    else if b = 240 then
      match rest with
      | b1 :: b2 :: b3 :: r =>
        (144 ≤ b1 && b1 ≤ 191) && contByte b2 && contByte b3 && validUtf8 r
      | _ => false
    else if 241 ≤ b && b ≤ 243 then
      match rest with
      | b1 :: b2 :: b3 :: r =>
        contByte b1 && contByte b2 && contByte b3 && validUtf8 r
      | _ => false
    else if b = 244 then
      match rest with
      | b1 :: b2 :: b3 :: r =>
        (128 ≤ b1 && b1 ≤ 143) && contByte b2 && contByte b3 && validUtf8 r
      | _ => false
    else false

/-- The two error kinds of `ReadToCharError` in `src/lib.rs`:
`InvalidUtf8(FromUtf8Error)` and `IoError(std::io::Error)`. -/
inductive RTCError where
  | invalidUtf8
  | ioError
deriving DecidableEq, Repr

/-- `String::from_utf8`: the resulting Rust `String` is represented by its
byte content, which equals the input bytes when they are valid UTF-8. -/
def fromUtf8 (bs : List Nat) : Except RTCError (List Nat) :=
  if validUtf8 bs then .ok bs else .error .invalidUtf8

/-- One outcome of `reader.read(&mut read_buf)`: a chunk of bytes
(`Ok(n)` filling the scratch buffer with `bs`, `n = bs.length`, where
`n = 0` — an empty chunk — signals exhaustion for that call), the
transient `ErrorKind::Interrupted`, or any other I/O error. The source is
the list of outcomes of successive reads; once it is exhausted every
further read yields zero bytes. -/
inductive ReadEv where
  | chunk (bs : List Nat)
  | interrupted
  | ioerr
deriving DecidableEq, Repr

/-- The state of a `BadInput<R>`: the remaining underlying source and the
carry-over buffer `buf` (bytes read but not yet delivered).  The fixed
1024-byte scratch `read_buf` is a transient read target only and carries
no state. -/
structure BadInput where
  source : List ReadEv
  buf : List Nat
deriving DecidableEq, Repr

/-- Scan a byte list for the first occurrence of `p`: the bytes strictly
before it and the bytes strictly after it (the delimiter itself is
dropped), or `none` when `p` does not occur.  This is the scan loop
`for (i, c) in …enumerate() { if c == p { … } }` of `try_read_to_byte`. -/
def splitFirst (p : Nat) : List Nat → Option (List Nat × List Nat)
  | [] => none
  | b :: rest =>
    if b = p then some ([], rest)
    else (splitFirst p rest).map (fun q => (b :: q.1, q.2))

/-- The read loop of `try_read_to_byte` after the carry-over scan failed:
`oldBuf` is the accumulator of delimiter-free bytes.  End of source (or a
zero-byte read) restores `buf := oldBuf` and yields `none`; an
`Interrupted` error is retried; any other I/O error is returned with the
accumulator dropped and `buf` left empty (it was taken at entry); a chunk
containing the delimiter ends the call with the tail of the chunk as the
new carry-over. -/
def readLoop (p : Nat) (oldBuf : List Nat) : List ReadEv →
    Option (Except RTCError (List Nat)) × BadInput
  | [] => (none, ⟨[], oldBuf⟩)
  | .chunk bs :: src =>
    if bs = [] then (none, ⟨src, oldBuf⟩)
    else
      match splitFirst p bs with
      | some (pre, post) => (some (fromUtf8 (oldBuf ++ pre)), ⟨src, post⟩)
      | none => readLoop p (oldBuf ++ bs) src
  | .interrupted :: src => readLoop p oldBuf src
  | .ioerr :: src => (some (.error .ioError), ⟨src, []⟩)

/-- `BadInput::try_read_to_byte(p)`: first scan the carry-over for `p`
(on a hit, the bytes before it are the result and the bytes after it the
new carry-over); otherwise enter the read loop. -/
def tryReadToByte (p : Nat) (st : BadInput) :
    Option (Except RTCError (List Nat)) × BadInput :=
  match splitFirst p st.buf with
  | some (pre, post) => (some (fromUtf8 pre), ⟨st.source, post⟩)
  | none => readLoop p st.buf st.source

/-- `BadInput::empty_buffer`: `none` when the carry-over is empty,
otherwise the whole carry-over is taken and decoded. -/
def emptyBuffer (st : BadInput) : Option (Except RTCError (List Nat)) × BadInput :=
  if st.buf = [] then (none, st)
  else (some (fromUtf8 st.buf), ⟨st.source, []⟩)

/-- `str::strip_suffix` for a single ASCII character `c` on the byte
representation of a valid UTF-8 string (an ASCII byte can only encode
itself, never occur inside a multi-byte character). -/
def stripSuffixByte (c : Nat) (s : List Nat) : Option (List Nat) :=
  if s.getLast? = some c then some s.dropLast else none

/-- The normalization closure of `try_line`:
`strip_suffix('\n')` — returning the line unchanged if absent — then
`strip_suffix('\r')` on the result. -/
def stripLine (s : List Nat) : List Nat :=
  match stripSuffixByte 10 s with
  | none => s
  | some s1 =>
    match stripSuffixByte 13 s1 with
    | none => s1
    | some s2 => s2

/-- `try_read_to_byte(p).or_else(|| empty_buffer().map(…))`: the
delimiter search with the end-of-stream flush of a final unterminated
remainder, exactly as composed inside `try_line`. -/
def readUntilFlush (p : Nat) (st : BadInput) :
    Option (Except RTCError (List Nat)) × BadInput :=
  match tryReadToByte p st with
  | (some e, st1) => (some e, st1)
  | (none, st1) => emptyBuffer st1

/-- `BadInput::try_line`: the flushed newline search, errors collapsed to
`none` by `.and_then(|e| e.ok())`, and the suffix normalization. -/
def tryLine (st : BadInput) : Option (List Nat) × BadInput :=
  match readUntilFlush 10 st with
  | (some (.ok s), st1) => (some (stripLine s), st1)
  | (some (.error _), st1) => (none, st1)
  | (none, st1) => (none, st1)

/-- Outcome of a Rust function that may `panic!`. -/
inductive PResult (α : Type) where
  | panic
  | ret (a : α)
deriving DecidableEq, Repr

/-- `BadInput::line`: `self.try_line().unwrap()`. -/
def lineOp (st : BadInput) : PResult (List Nat) × BadInput :=
  match tryLine st with
  | (none, st1) => (.panic, st1)
  | (some l, st1) => (.ret l, st1)

/-- The borrowing iterator `Lines<'a, R>`: a mutable reference to the
`BadInput`, embedded as ownership of its state threaded back out. -/
structure Lines where
  input : BadInput
deriving DecidableEq, Repr

/-- `Lines::next`: exactly `self.input.try_line()`. -/
def Lines.next (l : Lines) : Option (List Nat) × Lines :=
  match tryLine l.input with
  | (r, st) => (r, ⟨st⟩)

/-! ### The `InputString` combinators (`src/input_string.rs`)

A Rust `&str` is embedded as its character sequence `List Char`;
substring matching on valid UTF-8 coincides with matching on the
character sequence (UTF-8 is self-synchronizing). -/

/-- Boolean prefix test on character lists (`str::starts_with` for the
pattern at the current scan position). -/
def isPre : List Char → List Char → Bool
  | [], _ => true
  | _ :: _, [] => false
  | a :: as_, b :: bs => if a = b then isPre as_ bs else false

/-- `str::split_once(pat)`: the text before and after the first
occurrence of the literal pattern `pat`, or `none` when `pat` does not
occur.  The empty pattern matches immediately, as in Rust. -/
def splitOnce (pat : List Char) (s : List Char) : Option (List Char × List Char) :=
  if isPre pat s then some ([], s.drop pat.length)
  else
    match s with
    | [] => none
    | c :: s2 => (splitOnce pat s2).map (fun q => (c :: q.1, q.2))

/-- The loop of `destruct_n_with`/`try_destruct_n_with` instantiated with
the rotating-splitter closure of `destruct_n`: `case` is the current
rotation index (already reduced mod `ss.length`), `rem` the number of
splits still to perform before the final field (`M - 1` at entry, since
the loop pushes the whole remainder once `res.len() == M - 1`).  `none`
is the `split_once` failure (`unwrap` panic in the fatal form, `?`
propagation in the try form). -/
def destructGo (ss : List (List Char)) (case' : Nat) (rem : Nat) (s : List Char) :
    Option (List (List Char)) :=
  match rem with
  | 0 => some [s]
  | r + 1 =>
    match splitOnce (ss.getD case' []) s with
    | none => none
    | some (part, rest) =>
      (destructGo ss ((case' + 1) % ss.length) r rest).map (fun l => part :: l)

/-- `InputString::destruct_n::<N, M>(splitters)`: panics when the
splitter array is empty, otherwise runs the rotation loop and panics
(`unwrap`) when a splitter cannot be applied.  Faithful for `M ≥ 1`
(for `M = 0` the Rust `res.len() == M - 1` comparison wraps around and
the loop splits until failure or diverges). -/
def destruct_n (M : Nat) (ss : List (List Char)) (s : List Char) :
    PResult (List (List Char)) :=
  if ss.isEmpty then .panic
  else
    match destructGo ss 0 (M - 1) s with
    | none => .panic
    | some fs => .ret fs

/-- `InputString::try_destruct_n::<N, M>(splitters)`: the same explicit
`panic!` on an empty splitter array, otherwise the rotation loop with
failure returned as `none`.  Faithful for `M ≥ 1`. -/
def try_destruct_n (M : Nat) (ss : List (List Char)) (s : List Char) :
    PResult (Option (List (List Char))) :=
  if ss.isEmpty then .panic
  else .ret (destructGo ss 0 (M - 1) s)

/-- `InputString::split_n::<N>(p)`: `destruct_n([p])`. -/
def split_n (M : Nat) (p : List Char) (s : List Char) : PResult (List (List Char)) :=
  destruct_n M [p] s

/-- `InputString::try_split_n::<N>(p)`: `try_destruct_n([p])`. -/
def try_split_n (M : Nat) (p : List Char) (s : List Char) :
    PResult (Option (List (List Char))) :=
  try_destruct_n M [p] s

/-- `InputString::parse::<F>`: the target type's `FromStr` conversion is
abstracted as `conv`; a conversion failure is a `panic!`. -/
def parse {α : Type} (conv : List Char → Option α) (s : List Char) : PResult α :=
  match conv s with
  | none => .panic
  | some v => .ret v

/-- `InputString::try_parse::<F>`: the same conversion with `.ok()`. -/
def try_parse {α : Type} (conv : List Char → Option α) (s : List Char) : Option α :=
  conv s

/-! ### Chunking invariance: simulation against a chunk-free specification -/

/-- Chunk-free description of one flushed `read_until` call on the
remaining abstract byte stream `bs` (carry-over and unread source bytes
concatenated): everything before the first delimiter is delivered, a
delimiter-free non-empty remainder is flushed once, an empty remainder is
end of stream. -/
def readUntilSpec (p : Nat) (bs : List Nat) :
    Option (Except RTCError (List Nat)) × List Nat :=
  match splitFirst p bs with
  | some (pre, post) => (some (fromUtf8 pre), post)
  | none => if bs = [] then (none, []) else (some (fromUtf8 bs), [])

/-- The first `fuel` results of repeated flushed `read_until` calls in the
chunk-free description. -/
def specResults (p : Nat) : Nat → List Nat → List (Option (Except RTCError (List Nat)))
  | 0, _ => []
  | n + 1, bs => (readUntilSpec p bs).1 :: specResults p n (readUntilSpec p bs).2

/-- The first `fuel` results of repeated flushed `read_until` calls on a
reader state. -/
def resultsFuel (p : Nat) : Nat → BadInput → List (Option (Except RTCError (List Nat)))
  | 0, _ => []
  | n + 1, st => (readUntilFlush p st).1 :: resultsFuel p n (readUntilFlush p st).2

/-! ### The lazy line iterator -/

/-- Pull `k` elements from a `Lines` iterator, returning the results and
the iterator afterwards. -/
def pullN : Nat → Lines → List (Option (List Nat)) × Lines
  | 0, l => ([], l)
  | n + 1, l =>
    match Lines.next l with
    | (r, l2) =>
      match pullN n l2 with
      | (rs, l3) => (r :: rs, l3)

/-- Perform `k` direct `try_line` calls on a cursor, returning the results
and the cursor state afterwards. -/
def tryLineN : Nat → BadInput → List (Option (List Nat)) × BadInput
  | 0, st => ([], st)
  | n + 1, st =>
    match tryLine st with
    | (r, st2) =>
      match tryLineN n st2 with
      | (rs, st3) => (r :: rs, st3)


/-! ### Line sequences and further specification-side definitions -/

/-- At most `fuel` successive `try_line` calls, collecting the returned
lines and stopping at the first absent result. -/
def linesFuel : Nat → BadInput → List (List Nat)
  | 0, _ => []
  | n + 1, st =>
    match tryLine st with
    | (none, _) => []
    | (some l, st2) => l :: linesFuel n st2

/-- The newline-separated segments of a byte sequence, final empty
segment omitted: the lines the reader frames out of `bs`. -/
def segments : List Nat → List (List Nat)
  | [] => []
  | b :: rest =>
    if b = 10 then [] :: segments rest
    else
      match segments rest with
      | [] => [[b]]
      | g :: gs => (b :: g) :: gs

/-- Join lines with the newline delimiter. -/
def joinNl : List (List Nat) → List Nat
  | [] => []
  | [l] => l
  | l :: ls => l ++ 10 :: joinNl ls

/-- Every newline-separated segment of `bs` is valid UTF-8. -/
def allSegsValid (bs : List Nat) : Bool :=
  (segments bs).all validUtf8

/-- The `destruct_n` loop as the specification words it: keep the fields
already collected (`acc`), push the whole remainder once `M - 1` fields
have been collected, otherwise split at `delimiters[index]` and advance
`index = (index + 1) mod K`.  `fuel` bounds the iterations; `M` iterations
suffice. -/
def destructSpecGo (ss : List (List Char)) (M : Nat) :
    Nat → List (List Char) → List Char → Nat → Option (List (List Char))
  | _, _, _, 0 => none
  | index, acc, s, fuel + 1 =>
    if acc.length = M - 1 then some (acc ++ [s])
    else
      match splitOnce (ss.getD index []) s with
      | none => none
      | some (part, rest) =>
        destructSpecGo ss M ((index + 1) % ss.length) (acc ++ [part]) rest fuel

/-- `destruct_n` as the specification words it (defined for a non-empty
delimiter list). -/
def destructSpec (M : Nat) (ss : List (List Char)) (s : List Char) :
    Option (List (List Char)) :=
  destructSpecGo ss M 0 [] s M

/-- Join `M` fields by inserting the rotating delimiters of `ss`,
starting at rotation index `idx`: the inverse direction of the
destructuring round trip. -/
def joinRot (ss : List (List Char)) : Nat → List (List Char) → List Char
  | _, [] => []
  | _, [f] => f
  | idx, f :: fs => f ++ ss.getD idx [] ++ joinRot ss ((idx + 1) % ss.length) fs

/-- Side condition of the destructuring round trip: at every join
position, the earliest occurrence of the scheduled delimiter in
`field ++ delimiter` is the appended delimiter itself (so the split
re-finds exactly the joined boundary). -/
def cleanJoin (ss : List (List Char)) : Nat → List (List Char) → Bool
  | _, [] => true
  | _, [_] => true
  | idx, f :: fs =>
    decide (splitOnce (ss.getD idx []) (f ++ ss.getD idx []) = some (f, [])) &&
      cleanJoin ss ((idx + 1) % ss.length) fs

/-! ### Helper lemmas -/

/-! ### Lemmas about the byte scan `splitFirst` -/

theorem splitFirst_some_append {p : Nat} {a x y : List Nat} (b : List Nat)
    (h : splitFirst p a = some (x, y)) :
    splitFirst p (a ++ b) = some (x, y ++ b) := by
  induction a generalizing x y with
  | nil => simp [splitFirst] at h
  | cons c a ih =>
    simp only [splitFirst, List.cons_append, List.append_eq] at h ⊢
    by_cases hc : c = p
    · rw [if_pos hc] at h ⊢
      obtain ⟨rfl, rfl⟩ := Prod.mk.injEq .. ▸ Option.some.injEq .. ▸ h
      rfl
    · rw [if_neg hc] at h ⊢
      cases hsf : splitFirst p a with
      | none => rw [hsf] at h; simp at h
      | some q =>
        obtain ⟨q1, q2⟩ := q
        rw [hsf] at h
        simp only [Option.map_some', Option.some.injEq, Prod.mk.injEq] at h
        obtain ⟨hx, hy⟩ := h
        rw [ih hsf, Option.map_some']
        simp [← hx, hy]

theorem splitFirst_none_append {p : Nat} {a : List Nat} (b : List Nat)
    (h : splitFirst p a = none) :
    splitFirst p (a ++ b) = (splitFirst p b).map (fun q => (a ++ q.1, q.2)) := by
  induction a with
  | nil =>
    simp only [List.nil_append]
    cases hb : splitFirst p b with
    | none => simp
    | some q => simp
  | cons c a ih =>
    simp only [splitFirst, List.cons_append, List.append_eq] at h ⊢
    by_cases hc : c = p
    · rw [if_pos hc] at h; simp at h
    · rw [if_neg hc] at h ⊢
      cases hsf : splitFirst p a with
      | some q => rw [hsf] at h; simp at h
      | none =>
        rw [ih hsf]
        cases hb : splitFirst p b with
        | none => simp
        | some q => simp

theorem splitFirst_reconstruct {p : Nat} {l pre post : List Nat}
    (h : splitFirst p l = some (pre, post)) : l = pre ++ p :: post := by
  induction l generalizing pre post with
  | nil => simp [splitFirst] at h
  | cons c l ih =>
    simp only [splitFirst] at h
    by_cases hc : c = p
    · rw [if_pos hc] at h
      obtain ⟨rfl, rfl⟩ := Prod.mk.injEq .. ▸ Option.some.injEq .. ▸ h
      simp [hc]
    · rw [if_neg hc] at h
      cases hsf : splitFirst p l with
      | none => rw [hsf] at h; simp at h
      | some q =>
        obtain ⟨q1, q2⟩ := q
        rw [hsf] at h
        simp only [Option.map_some', Option.some.injEq, Prod.mk.injEq] at h
        obtain ⟨hx, hy⟩ := h
        subst hy
        rw [← hx, ih hsf]
        rfl

theorem splitFirst_none_not_mem {p : Nat} {l : List Nat}
    (h : splitFirst p l = none) : ∀ x ∈ l, x ≠ p := by
  induction l with
  | nil => simp
  | cons c l ih =>
    simp only [splitFirst] at h
    by_cases hc : c = p
    · rw [if_pos hc] at h; simp at h
    · rw [if_neg hc] at h
      cases hsf : splitFirst p l with
      | some q => rw [hsf] at h; simp at h
      | none =>
        intro x hx
        rcases List.mem_cons.mp hx with rfl | hx
        · exact hc
        · exact ih hsf x hx

theorem splitFirst_some_not_mem {p : Nat} {l pre post : List Nat}
    (h : splitFirst p l = some (pre, post)) : ∀ x ∈ pre, x ≠ p := by
  induction l generalizing pre post with
  | nil => simp [splitFirst] at h
  | cons c l ih =>
    simp only [splitFirst] at h
    by_cases hc : c = p
    · rw [if_pos hc] at h
      obtain ⟨rfl, rfl⟩ := Prod.mk.injEq .. ▸ Option.some.injEq .. ▸ h
      simp
    · rw [if_neg hc] at h
      cases hsf : splitFirst p l with
      | none => rw [hsf] at h; simp at h
      | some q =>
        obtain ⟨q1, q2⟩ := q
        rw [hsf] at h
        simp only [Option.map_some', Option.some.injEq, Prod.mk.injEq] at h
        obtain ⟨hx, hy⟩ := h
        intro x hmem
        rw [← hx] at hmem
        rcases List.mem_cons.mp hmem with rfl | hmem
        · exact hc
        · exact ih hsf x hmem

/-- A line that never contains the byte `\n` is left unchanged by the
`try_line` suffix normalization: the `\n`-strip fails, and the `\r`-strip
is only reachable behind a successful `\n`-strip. -/
theorem stripLine_of_not_mem {s : List Nat} (h : ∀ x ∈ s, x ≠ 10) :
    stripLine s = s := by
  have hlast : s.getLast? ≠ some 10 := by
    intro hc
    obtain ⟨ys, rfl⟩ := List.getLast?_eq_some_iff.mp hc
    exact h 10 (by simp) rfl
  unfold stripLine stripSuffixByte
  rw [if_neg hlast]

theorem readLoop_phase (p : Nat) (css : List (List Nat)) :
    ∀ buf : List Nat, (∀ c ∈ css, c ≠ []) → splitFirst p buf = none →
    ∃ (css2 : List (List Nat)) (buf2 : List Nat),
      (∀ c ∈ css2, c ≠ []) ∧
      readUntilFlush p ⟨css.map .chunk, buf⟩
        = ((readUntilSpec p (buf ++ css.flatten)).1, ⟨css2.map .chunk, buf2⟩) ∧
      buf2 ++ css2.flatten = (readUntilSpec p (buf ++ css.flatten)).2 := by
  induction css with
  | nil =>
    intro buf _ hbuf
    refine ⟨[], if buf = [] then [] else [], by simp, ?_, ?_⟩ <;>
      by_cases hb : buf = [] <;>
      simp [readUntilFlush, tryReadToByte, readLoop, emptyBuffer, readUntilSpec,
        splitFirst, hbuf, hb]
  | cons c cs ih =>
    intro buf hne hbuf
    have hc : c ≠ [] := hne c (by simp)
    have hcs : ∀ x ∈ cs, x ≠ [] := fun x hx => hne x (by simp [hx])
    cases hsc : splitFirst p c with
    | some q =>
      obtain ⟨pre, post⟩ := q
      refine ⟨cs, post, hcs, ?_, ?_⟩ <;>
        rw [show buf ++ (c :: cs).flatten = buf ++ (c ++ cs.flatten) by simp] <;>
        rw [readUntilSpec, splitFirst_none_append _ hbuf,
          splitFirst_some_append _ hsc] <;>
        simp [readUntilFlush, tryReadToByte, hbuf, readLoop, hc, hsc]
    | none =>
      have hb2 : splitFirst p (buf ++ c) = none := by
        rw [splitFirst_none_append _ hbuf, hsc]; rfl
      have hstep : readUntilFlush p ⟨(ReadEv.chunk c) :: cs.map .chunk, buf⟩
          = readUntilFlush p ⟨cs.map .chunk, buf ++ c⟩ := by
        simp [readUntilFlush, tryReadToByte, hbuf, hb2, readLoop, hc, hsc]
      obtain ⟨css2, buf2, h1, h2, h3⟩ := ih (buf ++ c) hcs hb2
      refine ⟨css2, buf2, h1, ?_, ?_⟩ <;>
        rw [show buf ++ (c :: cs).flatten = (buf ++ c) ++ cs.flatten by simp]
      · rw [List.map_cons, hstep]; exact h2
      · exact h3

theorem readUntilFlush_sim (p : Nat) (css : List (List Nat)) (buf : List Nat)
    (hne : ∀ c ∈ css, c ≠ []) :
    ∃ (css2 : List (List Nat)) (buf2 : List Nat),
      (∀ c ∈ css2, c ≠ []) ∧
      readUntilFlush p ⟨css.map .chunk, buf⟩
        = ((readUntilSpec p (buf ++ css.flatten)).1, ⟨css2.map .chunk, buf2⟩) ∧
      buf2 ++ css2.flatten = (readUntilSpec p (buf ++ css.flatten)).2 := by
  cases hsb : splitFirst p buf with
  | some q =>
    obtain ⟨pre, post⟩ := q
    refine ⟨css, post, hne, ?_, ?_⟩ <;>
      rw [readUntilSpec, splitFirst_some_append _ hsb] <;>
      simp [readUntilFlush, tryReadToByte, hsb]
  | none => exact readLoop_phase p css buf hne hsb

theorem resultsFuel_eq_spec (p : Nat) :
    ∀ (fuel : Nat) (css : List (List Nat)) (buf : List Nat),
    (∀ c ∈ css, c ≠ []) →
    resultsFuel p fuel ⟨css.map .chunk, buf⟩ = specResults p fuel (buf ++ css.flatten) := by
  intro fuel
  induction fuel with
  | zero => intro css buf _; rfl
  | succ n ih =>
    intro css buf hne
    obtain ⟨css2, buf2, h1, h2, h3⟩ := readUntilFlush_sim p css buf hne
    show (readUntilFlush p ⟨css.map .chunk, buf⟩).1
        :: resultsFuel p n (readUntilFlush p ⟨css.map .chunk, buf⟩).2
      = (readUntilSpec p (buf ++ css.flatten)).1
        :: specResults p n (readUntilSpec p (buf ++ css.flatten)).2
    rw [h2]
    exact congrArg _ (h3 ▸ ih css2 buf2 h1)



/-! ### Lemmas about line segmentation (claim C7) -/

theorem segments_cons_split {bs pre post : List Nat}
    (h : splitFirst 10 bs = some (pre, post)) :
    segments bs = pre :: segments post := by
  induction bs generalizing pre post with
  | nil => simp [splitFirst] at h
  | cons b rest ih =>
    simp only [splitFirst] at h
    by_cases hb : b = 10
    · rw [if_pos hb] at h
      obtain ⟨rfl, rfl⟩ := Prod.mk.injEq .. ▸ Option.some.injEq .. ▸ h
      simp [segments, hb]
    · rw [if_neg hb] at h
      cases hsf : splitFirst 10 rest with
      | none => rw [hsf] at h; simp at h
      | some q =>
        obtain ⟨q1, q2⟩ := q
        rw [hsf] at h
        simp only [Option.map_some', Option.some.injEq, Prod.mk.injEq] at h
        obtain ⟨hx, hy⟩ := h
        subst hy
        rw [← hx]
        simp [segments, hb, ih hsf]

theorem segments_no_split {bs : List Nat}
    (h : splitFirst 10 bs = none) (hne : bs ≠ []) :
    segments bs = [bs] := by
  induction bs with
  | nil => exact absurd rfl hne
  | cons b rest ih =>
    simp only [splitFirst] at h
    by_cases hb : b = 10
    · rw [if_pos hb] at h; simp at h
    · rw [if_neg hb] at h
      cases hsf : splitFirst 10 rest with
      | some q => rw [hsf] at h; simp at h
      | none =>
        rcases List.eq_nil_or_concat rest with hrest | _
        · subst hrest; simp [segments, hb]
        · have hrne : rest ≠ [] := by
            rintro rfl; simp_all
          simp [segments, hb, ih hsf hrne]

theorem joinNl_cons_head (b : Nat) (g : List Nat) (gs : List (List Nat)) :
    joinNl ((b :: g) :: gs) = b :: joinNl (g :: gs) := by
  cases gs with
  | nil => rfl
  | cons x xs => simp [joinNl]

theorem segments_ne_nil {b : Nat} {rest : List Nat} : segments (b :: rest) ≠ [] := by
  by_cases hb : b = 10
  · simp [segments, hb]
  · simp only [segments, if_neg hb]
    cases segments rest <;> simp

theorem joinNl_segments (bs : List Nat) :
    joinNl (segments bs) = bs ∨ joinNl (segments bs) ++ [10] = bs := by
  induction bs with
  | nil => left; rfl
  | cons b rest ih =>
    cases hsr : segments rest with
    | nil =>
      have hre : rest = [] := by
        cases rest with
        | nil => rfl
        | cons c r => exact absurd hsr segments_ne_nil
      subst hre
      by_cases hb : b = 10
      · subst hb; right; rfl
      · left; simp [segments, hb, joinNl]
    | cons g gs =>
      by_cases hb : b = 10
      · subst hb
        have e1 : joinNl (segments (10 :: rest)) = 10 :: joinNl (segments rest) := by
          simp [segments, hsr, joinNl]
        rcases ih with h | h
        · left; rw [e1, h]
        · right; rw [e1, List.cons_append, h]
      · have e2 : segments (b :: rest) = (b :: g) :: gs := by
          simp [segments, hb, hsr]
        rcases ih with h | h
        · left; rw [e2, joinNl_cons_head, ← hsr, h]
        · right; rw [e2, joinNl_cons_head, ← hsr, List.cons_append, h]

theorem linesFuel_empty_state : ∀ m : Nat, linesFuel m ⟨[], []⟩ = []
  | 0 => rfl
  | _ + 1 => rfl

theorem tryLine_chunk (bs : List Nat) :
    tryLine ⟨[.chunk bs], []⟩ = tryLine ⟨[], bs⟩ := by
  by_cases hbs : bs = []
  · subst hbs; rfl
  · cases hsf : splitFirst 10 bs with
    | some q =>
      obtain ⟨pre, post⟩ := q
      simp [tryLine, readUntilFlush, tryReadToByte, readLoop, emptyBuffer,
        splitFirst, hbs, hsf]
    | none =>
      simp [tryLine, readUntilFlush, tryReadToByte, readLoop, emptyBuffer,
        splitFirst, hbs, hsf]

theorem linesFuel_chunk (n : Nat) (bs : List Nat) :
    linesFuel n ⟨[.chunk bs], []⟩ = linesFuel n ⟨[], bs⟩ := by
  cases n with
  | zero => rfl
  | succ m => simp only [linesFuel, tryLine_chunk]

theorem linesFuel_drained :
    ∀ (k : Nat) (bs : List Nat), bs.length < k → allSegsValid bs = true →
    ∀ n, bs.length + 1 ≤ n → linesFuel n ⟨[], bs⟩ = segments bs := by
  intro k
  induction k with
  | zero => intro bs h; omega
  | succ k ih =>
    intro bs hlen hvalid n hn
    obtain ⟨m, rfl⟩ : ∃ m, n = m + 1 := ⟨n - 1, by omega⟩
    cases hsf : splitFirst 10 bs with
    | some q =>
      obtain ⟨pre, post⟩ := q
      have hrec := splitFirst_reconstruct hsf
      have hlb : bs.length = pre.length + post.length + 1 := by
        rw [hrec]; simp; omega
      have hvalid2 : validUtf8 pre = true ∧ allSegsValid post = true := by
        rw [allSegsValid, segments_cons_split hsf] at hvalid
        simpa [allSegsValid] using hvalid
      have htl : tryLine ⟨[], bs⟩ = (some pre, ⟨[], post⟩) := by
        simp [tryLine, readUntilFlush, tryReadToByte, hsf, fromUtf8, hvalid2.1,
          stripLine_of_not_mem (splitFirst_some_not_mem hsf)]
      rw [show linesFuel (m + 1) ⟨[], bs⟩ = pre :: linesFuel m ⟨[], post⟩ by
        simp [linesFuel, htl]]
      rw [segments_cons_split hsf]
      exact congrArg _ (ih post (by omega) hvalid2.2 m (by omega))
    | none =>
      by_cases hbs : bs = []
      · subst hbs; rfl
      · have hv : validUtf8 bs = true := by
          rw [allSegsValid, segments_no_split hsf hbs] at hvalid
          simpa using hvalid
        have htl : tryLine ⟨[], bs⟩ = (some bs, ⟨[], []⟩) := by
          simp [tryLine, readUntilFlush, tryReadToByte, hsf, readLoop, emptyBuffer,
            hbs, fromUtf8, hv, stripLine_of_not_mem (splitFirst_none_not_mem hsf)]
        rw [show linesFuel (m + 1) ⟨[], bs⟩ = bs :: linesFuel m ⟨[], []⟩ by
          simp [linesFuel, htl]]
        rw [linesFuel_empty_state, segments_no_split hsf hbs]

/-! ### Lemmas about destructuring (claims C4, C5) -/

theorem destructSpecGo_eq (ss : List (List Char)) (M : Nat) :
    ∀ (r : Nat) (acc : List (List Char)) (idx : Nat) (s : List Char),
    acc.length + r = M - 1 →
    destructSpecGo ss M idx acc s (r + 1)
      = (destructGo ss idx r s).map (fun l => acc ++ l) := by
  intro r
  induction r with
  | zero =>
    intro acc idx s hlen
    simp only [Nat.add_zero] at hlen
    simp [destructSpecGo, destructGo, hlen]
  | succ r ih =>
    intro acc idx s hlen
    have hne : acc.length ≠ M - 1 := by omega
    have lhs : destructSpecGo ss M idx acc s (r + 1 + 1)
        = (if acc.length = M - 1 then some (acc ++ [s])
           else
             match splitOnce (ss.getD idx []) s with
             | none => none
             | some (part, rest) =>
               destructSpecGo ss M ((idx + 1) % ss.length) (acc ++ [part]) rest
                 (r + 1)) := rfl
    rw [lhs, if_neg hne]
    simp only [destructGo]
    cases hsp : splitOnce (ss.getD idx []) s with
    | none => rfl
    | some q =>
      obtain ⟨part, rest⟩ := q
      show destructSpecGo ss M ((idx + 1) % ss.length) (acc ++ [part]) rest (r + 1)
          = Option.map (fun l => acc ++ l)
            (Option.map (fun l => part :: l)
              (destructGo ss ((idx + 1) % ss.length) r rest))
      rw [ih (acc ++ [part]) ((idx + 1) % ss.length) rest (by simp; omega)]
      cases destructGo ss ((idx + 1) % ss.length) r rest <;> simp

theorem isPre_self_append (p t : List Char) : isPre p (p ++ t) = true := by
  induction p with
  | nil => rfl
  | cons a as ih => simp [isPre, ih]

theorem isPre_append_of_le (p : List Char) :
    ∀ x : List Char, p.length ≤ x.length → ∀ t, isPre p (x ++ t) = isPre p x := by
  induction p with
  | nil => intro x _ t; rfl
  | cons a as ih =>
    intro x hlen t
    cases x with
    | nil => simp at hlen
    | cons b bs =>
      simp only [List.cons_append, List.append_eq, isPre]
      by_cases hab : a = b
      · rw [if_pos hab, if_pos hab, ih bs (by simpa using hlen) t]
      · rw [if_neg hab, if_neg hab]

theorem splitOnce_boundary {d f : List Char}
    (h : splitOnce d (f ++ d) = some (f, [])) (t : List Char) :
    splitOnce d (f ++ d ++ t) = some (f, t) := by
  induction f with
  | nil =>
    simp only [List.nil_append] at h ⊢
    rw [splitOnce.eq_def, if_pos (isPre_self_append d t), List.drop_left]
  | cons c f2 ih =>
    rw [splitOnce.eq_def] at h
    cases hp : isPre d ((c :: f2) ++ d) with
    | true => rw [if_pos hp] at h; simp at h
    | false =>
      rw [if_neg (by simpa using hp)] at h
      simp only [List.cons_append] at h
      cases hin : splitOnce d (f2 ++ d) with
      | none => rw [hin] at h; simp at h
      | some q =>
        obtain ⟨q1, q2⟩ := q
        rw [hin] at h
        simp at h
        obtain ⟨h1, h2⟩ := h
        subst h2
        subst h1
        have ihh := ih hin
        rw [splitOnce.eq_def]
        have hp2 : isPre d ((c :: q1) ++ d ++ t) = false := by
          rw [show (c :: q1) ++ d ++ t = ((c :: q1) ++ d) ++ t by simp]
          rw [isPre_append_of_le d ((c :: q1) ++ d) (by simp; omega) t]
          exact hp
        rw [if_neg (by simpa using hp2)]
        simp only [List.cons_append]
        rw [ihh]
        rfl

theorem destructGo_joinRot (ss : List (List Char)) :
    ∀ (fs : List (List Char)) (idx : Nat), fs ≠ [] → cleanJoin ss idx fs = true →
    destructGo ss idx (fs.length - 1) (joinRot ss idx fs) = some fs := by
  intro fs
  induction fs with
  | nil => intro idx h; exact absurd rfl h
  | cons f fs ih =>
    intro idx _ hclean
    cases fs with
    | nil => rfl
    | cons g gs =>
      have hcj : splitOnce (ss.getD idx []) (f ++ ss.getD idx []) = some (f, []) ∧
          cleanJoin ss ((idx + 1) % ss.length) (g :: gs) = true := by
        simpa [cleanJoin] using hclean
      rw [show (f :: g :: gs).length - 1 = gs.length + 1 by simp]
      rw [show joinRot ss idx (f :: g :: gs)
          = f ++ ss.getD idx [] ++ joinRot ss ((idx + 1) % ss.length) (g :: gs)
        from rfl]
      simp only [destructGo, splitOnce_boundary hcj.1]
      have hrec := ih ((idx + 1) % ss.length) (by simp) hcj.2
      rw [show (g :: gs).length - 1 = gs.length by simp] at hrec
      rw [hrec]
      rfl

/-! ### Lemma for claim C10 -/

theorem readLoop_ioerr (p : Nat) :
    ∀ (css : List (List Nat)) (rest : List ReadEv) (oldBuf : List Nat),
    (∀ c ∈ css, c ≠ [] ∧ splitFirst p c = none) →
    readLoop p oldBuf (css.map .chunk ++ .ioerr :: rest)
      = (some (.error .ioError), ⟨rest, []⟩) := by
  intro css
  induction css with
  | nil => intro rest oldBuf _; rfl
  | cons c cs ih =>
    intro rest oldBuf h
    obtain ⟨hc, hsc⟩ := h c (by simp)
    simp only [List.map_cons, List.cons_append, readLoop, if_neg hc, hsc]
    exact ih rest (oldBuf ++ c) (fun x hx => h x (by simp [hx]))

/-! ### The claims -/

/-- **C1** Chunking invariance of delimiter search: for every byte
sequence and every delimiter byte, the sequence of results produced by
repeated flushed `try_read_to_byte` calls is identical for any two
fragmentations of that byte sequence into non-empty physical reads
(e.g. one byte per read versus all at once). -/
theorem claim_C1_chunking_invariance (p : Nat) (bs : List Nat)
    (css1 css2 : List (List Nat)) (fuel : Nat)
    (h1 : ∀ c ∈ css1, c ≠ []) (h2 : ∀ c ∈ css2, c ≠ [])
    (hj1 : css1.flatten = bs) (hj2 : css2.flatten = bs) :
    resultsFuel p fuel ⟨css1.map .chunk, []⟩
      = resultsFuel p fuel ⟨css2.map .chunk, []⟩ := by
  rw [resultsFuel_eq_spec p fuel css1 [] h1, resultsFuel_eq_spec p fuel css2 [] h2,
    List.nil_append, List.nil_append, hj1, hj2]

/-- Witness for C1: the bytes of "ab\ncd" delivered one byte per read
versus all at once. -/
theorem claim_C1_chunking_invariance_witness :
    ((∀ c ∈ [[97], [98], [10], [99], [100]], c ≠ ([] : List Nat)) ∧
      (∀ c ∈ [[97, 98, 10, 99, 100]], c ≠ ([] : List Nat)) ∧
      [[97], [98], [10], [99], [100]].flatten = [97, 98, 10, 99, 100] ∧
      [[97, 98, 10, 99, 100]].flatten = [97, 98, 10, 99, 100]) ∧
    resultsFuel 10 3 ⟨[[97], [98], [10], [99], [100]].map .chunk, []⟩
      = resultsFuel 10 3 ⟨[[97, 98, 10, 99, 100]].map .chunk, []⟩ :=
  ⟨⟨by decide, by decide, by decide, by decide⟩,
    claim_C1_chunking_invariance 10 [97, 98, 10, 99, 100] _ _ 3
      (by decide) (by decide) (by decide) (by decide)⟩

/-- **C2** End-of-stream flush of the final unterminated line: on an
exhausted source, a non-empty delimiter-free carry-over is returned
exactly once as Found (leaving the empty state), an empty one yields end
of stream, and every later call stays absent; the input "a\nb\nc" yields
"a", "b", "c", then absent forever. -/
theorem claim_C2_eos_flush (p : Nat) (buf : List Nat)
    (hnd : splitFirst p buf = none) (hne : buf ≠ []) :
    readUntilFlush p ⟨[], buf⟩ = (some (fromUtf8 buf), ⟨[], []⟩) ∧
    readUntilFlush p ⟨[], []⟩ = (none, ⟨[], []⟩) ∧
    tryLine ⟨[.chunk (asciiBytes "a\nb\nc")], []⟩
      = (some (asciiBytes "a"), ⟨[], asciiBytes "b\nc"⟩) ∧
    tryLine ⟨[], asciiBytes "b\nc"⟩ = (some (asciiBytes "b"), ⟨[], asciiBytes "c"⟩) ∧
    tryLine ⟨[], asciiBytes "c"⟩ = (some (asciiBytes "c"), ⟨[], []⟩) ∧
    tryLine ⟨[], []⟩ = (none, ⟨[], []⟩) := by
  refine ⟨?_, rfl, rfl, rfl, rfl, rfl⟩
  simp [readUntilFlush, tryReadToByte, hnd, readLoop, emptyBuffer, hne]

/-- Witness for C2 at `p = 10`, carry-over `[97]`. -/
theorem claim_C2_eos_flush_witness :
    (splitFirst 10 [97] = none ∧ ([97] : List Nat) ≠ []) ∧
    (readUntilFlush 10 ⟨[], [97]⟩ = (some (fromUtf8 [97]), ⟨[], []⟩) ∧
      readUntilFlush 10 ⟨[], []⟩ = (none, ⟨[], []⟩) ∧
      tryLine ⟨[.chunk (asciiBytes "a\nb\nc")], []⟩
        = (some (asciiBytes "a"), ⟨[], asciiBytes "b\nc"⟩) ∧
      tryLine ⟨[], asciiBytes "b\nc"⟩
        = (some (asciiBytes "b"), ⟨[], asciiBytes "c"⟩) ∧
      tryLine ⟨[], asciiBytes "c"⟩ = (some (asciiBytes "c"), ⟨[], []⟩) ∧
      tryLine ⟨[], []⟩ = (none, ⟨[], []⟩)) :=
  ⟨⟨by decide, by decide⟩, claim_C2_eos_flush 10 [97] (by decide) (by decide)⟩

/-- **C3** (the code refutes the CRLF claim): the first line read from
"a\r\nb" is "a\r", not "a".  `try_read_to_byte` never includes the
trailing newline in its result, so the `\r`-strip of `try_line`, which
is only reachable after a successful `\n`-strip, never fires. -/
theorem claim_C3_crlf_not_normalized :
    (tryLine ⟨[.chunk (asciiBytes "a\r\nb")], []⟩).1 = some (asciiBytes "a\r") ∧
    (tryLine ⟨[.chunk (asciiBytes "a\r\nb")], []⟩).1 ≠ some (asciiBytes "a") :=
  ⟨rfl, by decide⟩

/-- **C4** `destruct_n` rotation algorithm: `destruct_n`/`try_destruct_n`
agree with the specification-worded rotation loop `destructSpec` for
every non-empty delimiter list and arity `M ≥ 1` (failing fatally resp.
absently when a required delimiter is missing), and the line
"Very,8;fancy,82;string,11" destructures at arities 6 and 5 as claimed. -/
theorem claim_C4_destruct_rotation (M : Nat) (ss : List (List Char)) (s : List Char)
    (hM : 1 ≤ M) (hss : ss ≠ []) :
    try_destruct_n M ss s = .ret (destructSpec M ss s) ∧
    destruct_n M ss s
      = (match destructSpec M ss s with
         | none => PResult.panic
         | some fs => PResult.ret fs) ∧
    destruct_n 6 [",".toList, ";".toList] "Very,8;fancy,82;string,11".toList
      = .ret ["Very".toList, "8".toList, "fancy".toList, "82".toList,
          "string".toList, "11".toList] ∧
    destruct_n 5 [",".toList, ";".toList] "Very,8;fancy,82;string,11".toList
      = .ret ["Very".toList, "8".toList, "fancy".toList, "82".toList,
          "string,11".toList] := by
  have hie : ss.isEmpty = false := by simpa [List.isEmpty_iff] using hss
  obtain ⟨m, rfl⟩ : ∃ m, M = m + 1 := ⟨M - 1, by omega⟩
  have hsp : destructSpec (m + 1) ss s = destructGo ss 0 m s := by
    rw [destructSpec, destructSpecGo_eq ss (m + 1) m [] 0 s (by simp)]
    simp
  refine ⟨?_, ?_, rfl, rfl⟩
  · rw [try_destruct_n, hsp]
    simp [hie]
  · rw [destruct_n, hsp]
    simp [hie]

/-- Witness for C4 at `M = 2`, delimiters `[","]`, text "a,b". -/
theorem claim_C4_destruct_rotation_witness :
    (1 ≤ 2 ∧ ([",".toList] : List (List Char)) ≠ []) ∧
    (try_destruct_n 2 [",".toList] "a,b".toList
        = .ret (destructSpec 2 [",".toList] "a,b".toList) ∧
      destruct_n 2 [",".toList] "a,b".toList
        = (match destructSpec 2 [",".toList] "a,b".toList with
           | none => PResult.panic
           | some fs => PResult.ret fs) ∧
      destruct_n 6 [",".toList, ";".toList] "Very,8;fancy,82;string,11".toList
        = .ret ["Very".toList, "8".toList, "fancy".toList, "82".toList,
            "string".toList, "11".toList] ∧
      destruct_n 5 [",".toList, ";".toList] "Very,8;fancy,82;string,11".toList
        = .ret ["Very".toList, "8".toList, "fancy".toList, "82".toList,
            "string,11".toList]) :=
  ⟨⟨by decide, by decide⟩,
    claim_C4_destruct_rotation 2 [",".toList] "a,b".toList (by decide) (by decide)⟩

/-- **C5** Destructuring round trip (amended): joining `M` fields with the
rotating delimiters and applying `destruct_n` with the same delimiters and
target count `M` reproduces the fields, provided that at each join
position the earliest occurrence of the scheduled delimiter in
`field ++ delimiter` is the appended delimiter itself.  (Unconditionally
the claim is false: a field containing its delimiter is re-split
earlier.) -/
theorem claim_C5_destructure_round_trip (ss fs : List (List Char))
    (h1 : ss ≠ []) (h2 : fs ≠ []) (h3 : cleanJoin ss 0 fs = true) :
    destruct_n fs.length ss (joinRot ss 0 fs) = .ret fs ∧
    try_destruct_n fs.length ss (joinRot ss 0 fs) = .ret (some fs) := by
  have hie : ss.isEmpty = false := by simpa [List.isEmpty_iff] using h1
  have hgo := destructGo_joinRot ss fs 0 h2 h3
  constructor
  · rw [destruct_n]
    simp [hie, hgo]
  · rw [try_destruct_n]
    simp [hie, hgo]

/-- Counterexample to C5 as stated: the fields ["a,b", "c"] joined with
the delimiter "," give "a,b,c", which destructures to ["a", "b,c"], not
back to the original fields. -/
theorem claim_C5_destructure_round_trip_counterexample :
    joinRot [",".toList] 0 ["a,b".toList, "c".toList] = "a,b,c".toList ∧
    destruct_n 2 [",".toList] "a,b,c".toList = .ret ["a".toList, "b,c".toList] ∧
    (["a".toList, "b,c".toList] : List (List Char)) ≠ ["a,b".toList, "c".toList] :=
  ⟨rfl, rfl, by decide⟩

/-- Witness for C5 with fields ["ab", "c"] and delimiter ",". -/
theorem claim_C5_destructure_round_trip_witness :
    (([",".toList] : List (List Char)) ≠ [] ∧
      (["ab".toList, "c".toList] : List (List Char)) ≠ [] ∧
      cleanJoin [",".toList] 0 ["ab".toList, "c".toList] = true) ∧
    (destruct_n (["ab".toList, "c".toList] : List (List Char)).length [",".toList]
        (joinRot [",".toList] 0 ["ab".toList, "c".toList])
        = .ret ["ab".toList, "c".toList] ∧
      try_destruct_n (["ab".toList, "c".toList] : List (List Char)).length [",".toList]
        (joinRot [",".toList] 0 ["ab".toList, "c".toList])
        = .ret (some ["ab".toList, "c".toList])) :=
  ⟨⟨by decide, by decide, by decide⟩,
    claim_C5_destructure_round_trip [",".toList] ["ab".toList, "c".toList]
      (by decide) (by decide) (by decide)⟩

/-- **C6** Fatal/try symmetry (amended): for the input-dependent failure
conditions — a missing delimiter in `destruct_n`/`split_n`, an
unconvertible text in `parse`, an exhausted or undecodable line in
`line` — the corresponding try operation returns an absent result.
(As stated the claim is false: on an empty delimiter array both
`destruct_n` and `try_destruct_n` fail fatally.) -/
theorem claim_C6_fatal_try_symmetry {α : Type} (M : Nat) (ss : List (List Char))
    (s p t : List Char) (conv : List Char → Option α) (st : BadInput)
    (hM : 1 ≤ M) (hss : ss ≠ []) :
    (destruct_n M ss s = .panic → try_destruct_n M ss s = .ret none) ∧
    (split_n M p s = .panic → try_split_n M p s = .ret none) ∧
    (parse conv t = .panic → try_parse conv t = none) ∧
    ((lineOp st).1 = .panic → (tryLine st).1 = none) := by
  have hie : ss.isEmpty = false := by simpa [List.isEmpty_iff] using hss
  refine ⟨?_, ?_, ?_, ?_⟩
  · intro h
    rw [try_destruct_n]
    cases hgo : destructGo ss 0 (M - 1) s with
    | none => simp [hie]
    | some fs =>
      rw [destruct_n] at h
      simp [hie, hgo] at h
  · intro h
    rw [try_split_n, try_destruct_n]
    cases hgo : destructGo [p] 0 (M - 1) s with
    | none => simp
    | some fs =>
      rw [split_n, destruct_n] at h
      simp [hgo] at h
  · intro h
    rw [parse] at h
    rw [try_parse]
    cases hc : conv t with
    | none => rfl
    | some v => rw [hc] at h; simp at h
  · intro h
    rw [lineOp] at h
    cases htl : tryLine st with
    | mk r st2 =>
      rw [htl] at h
      cases r with
      | none => rfl
      | some l => simp at h

/-- Counterexample to C6 as stated: with an empty delimiter array
`destruct_n` fails fatally and `try_destruct_n` also fails fatally
instead of returning an absent result. -/
theorem claim_C6_fatal_try_symmetry_counterexample :
    destruct_n 2 [] "ab".toList = .panic ∧
    try_destruct_n 2 [] "ab".toList = .panic ∧
    try_destruct_n 2 [] "ab".toList ≠ .ret none :=
  ⟨rfl, rfl, by decide⟩

/-- Witness for C6 at `M = 2`, delimiters `[","]`, text "ab" (which has
no comma, so `destruct_n` fails fatally). -/
theorem claim_C6_fatal_try_symmetry_witness :
    (1 ≤ 2 ∧ ([",".toList] : List (List Char)) ≠ []) ∧
    ((destruct_n 2 [",".toList] "ab".toList = .panic →
        try_destruct_n 2 [",".toList] "ab".toList = .ret none) ∧
      (split_n 2 ";".toList "ab".toList = .panic →
        try_split_n 2 ";".toList "ab".toList = .ret none) ∧
      (parse (fun _ => (none : Option Nat)) "x".toList = .panic →
        try_parse (fun _ => (none : Option Nat)) "x".toList = none) ∧
      ((lineOp ⟨[], []⟩).1 = .panic → (tryLine ⟨[], []⟩).1 = none)) :=
  ⟨⟨by decide, by decide⟩,
    claim_C6_fatal_try_symmetry 2 [",".toList] "ab".toList ";".toList "x".toList
      (fun _ => (none : Option Nat)) ⟨[], []⟩ (by decide) (by decide)⟩

/-- **C7** Line round trip (amended): for every byte sequence all of
whose newline-separated segments are valid UTF-8, joining the lines
produced by successive `try_line` calls with the newline delimiter
reproduces the original input up to exactly one trailing newline (no
carriage return is ever stripped).  (Unconditionally the claim is false:
an invalid-UTF-8 line is dropped.) -/
theorem claim_C7_line_round_trip (bs : List Nat) (h : allSegsValid bs = true) :
    joinNl (linesFuel (bs.length + 1) ⟨[.chunk bs], []⟩) = bs ∨
    joinNl (linesFuel (bs.length + 1) ⟨[.chunk bs], []⟩) ++ [10] = bs := by
  rw [linesFuel_chunk,
    linesFuel_drained (bs.length + 1) bs (by omega) h (bs.length + 1) le_rfl]
  exact joinNl_segments bs

/-- Counterexample to C7 as stated: on the bytes [255, 10, 97] the first
line is invalid UTF-8, `try_line` yields an absent result, and the joined
lines do not reproduce the input. -/
theorem claim_C7_line_round_trip_counterexample :
    ¬(joinNl (linesFuel 4 ⟨[.chunk [255, 10, 97]], []⟩) = [255, 10, 97] ∨
      joinNl (linesFuel 4 ⟨[.chunk [255, 10, 97]], []⟩) ++ [10] = [255, 10, 97]) := by
  decide

/-- Witness for C7 at the input "a\nb". -/
theorem claim_C7_line_round_trip_witness :
    allSegsValid (asciiBytes "a\nb") = true ∧
    (joinNl (linesFuel ((asciiBytes "a\nb").length + 1)
        ⟨[.chunk (asciiBytes "a\nb")], []⟩) = asciiBytes "a\nb" ∨
      joinNl (linesFuel ((asciiBytes "a\nb").length + 1)
        ⟨[.chunk (asciiBytes "a\nb")], []⟩) ++ [10] = asciiBytes "a\nb") :=
  ⟨by decide, claim_C7_line_round_trip (asciiBytes "a\nb") (by decide)⟩

/-- **C8** Shared cursor state of the lazy line sequence: pulling `k`
elements from the `lines()` iterator consumes exactly one line per
element — identical results and identical underlying cursor state to `k`
direct `try_line` calls — so stopping early leaves the remaining lines
available to direct calls, as in the doc scenario where one pulled line
is followed by a direct `try_line` returning the second line. -/
theorem claim_C8_lines_shares_cursor :
    (∀ (k : Nat) (st : BadInput),
      (pullN k ⟨st⟩).1 = (tryLineN k st).1 ∧
      (pullN k ⟨st⟩).2.input = (tryLineN k st).2) ∧
    (pullN 1 ⟨⟨[.chunk (asciiBytes "Here are multiple\nlines.")], []⟩⟩).1
      = [some (asciiBytes "Here are multiple")] ∧
    (tryLine ((pullN 1 ⟨⟨[.chunk (asciiBytes "Here are multiple\nlines.")], []⟩⟩).2.input)).1
      = some (asciiBytes "lines.") := by
  refine ⟨?_, rfl, rfl⟩
  intro k
  induction k with
  | zero => intro st; exact ⟨rfl, rfl⟩
  | succ n ih =>
    intro st
    cases htl : tryLine st with
    | mk r st2 =>
      have h1 : Lines.next ⟨st⟩ = (r, ⟨st2⟩) := by
        rw [Lines.next, htl]
      have ihs := ih st2
      cases hpn : pullN n ⟨st2⟩ with
      | mk rs l3 =>
        cases htn : tryLineN n st2 with
        | mk rs2 st3 =>
          rw [hpn, htn] at ihs
          simp only at ihs
          simp only [pullN, tryLineN, h1, htl, hpn, htn]
          exact ⟨by rw [ihs.1], ihs.2⟩

/-- **C9** An absent `try_line` result does not imply exhaustion: a line
whose assembled bytes are invalid UTF-8 is consumed (the carry-over
advances past its delimiter) with `none` returned, and the next call can
return the following line, as on the bytes [255, 10, 97]. -/
theorem claim_C9_invalid_line_consumed (st : BadInput) (pre post : List Nat)
    (hsplit : splitFirst 10 st.buf = some (pre, post))
    (hbad : validUtf8 pre = false) :
    tryLine st = (none, ⟨st.source, post⟩) ∧
    (tryLine ⟨[.chunk [255, 10, 97]], []⟩).1 = none ∧
    tryLine (tryLine ⟨[.chunk [255, 10, 97]], []⟩).2 = (some [97], ⟨[], []⟩) := by
  refine ⟨?_, rfl, rfl⟩
  simp [tryLine, readUntilFlush, tryReadToByte, hsplit, fromUtf8, hbad]

/-- Witness for C9 at the carry-over [255, 10, 98]. -/
theorem claim_C9_invalid_line_consumed_witness :
    (splitFirst 10 [255, 10, 98] = some ([255], [98]) ∧
      validUtf8 [255] = false) ∧
    (tryLine ⟨[], [255, 10, 98]⟩ = (none, ⟨[], [98]⟩) ∧
      (tryLine ⟨[.chunk [255, 10, 97]], []⟩).1 = none ∧
      tryLine (tryLine ⟨[.chunk [255, 10, 97]], []⟩).2 = (some [97], ⟨[], []⟩)) :=
  ⟨⟨by decide, by decide⟩,
    claim_C9_invalid_line_consumed ⟨[], [255, 10, 98]⟩ [255] [98]
      (by decide) (by decide)⟩

/-- **C10** A non-interrupted I/O error is not atomic: when the read loop
hits such an error, the carry-over bytes buffered before the call and all
chunk bytes accumulated during it are discarded — the call returns the
error and the carry-over buffer is left empty. -/
theorem claim_C10_io_error_discards (p : Nat) (buf : List Nat)
    (css : List (List Nat)) (rest : List ReadEv)
    (hbuf : splitFirst p buf = none)
    (hcss : ∀ c ∈ css, c ≠ [] ∧ splitFirst p c = none) :
    tryReadToByte p ⟨css.map .chunk ++ .ioerr :: rest, buf⟩
      = (some (.error .ioError), ⟨rest, []⟩) := by
  rw [tryReadToByte]
  simp only [hbuf]
  exact readLoop_ioerr p css rest buf hcss

/-- Witness for C10: carry-over [97], one delimiter-free chunk [98], then
an I/O error. -/
theorem claim_C10_io_error_discards_witness :
    (splitFirst 10 [97] = none ∧
      (∀ c ∈ [[98]], c ≠ ([] : List Nat) ∧ splitFirst 10 c = none)) ∧
    tryReadToByte 10 ⟨[[98]].map .chunk ++ .ioerr :: [], [97]⟩
      = (some (.error .ioError), ⟨[], []⟩) :=
  ⟨⟨by decide, by decide⟩,
    claim_C10_io_error_discards 10 [97] [[98]] [] (by decide) (by decide)⟩

end BadInputModel
